import Mathlib

/-!
Shallow embedding of `houston/src/lib/service/github.ts` (the GitHub service
class) and proofs about it.

Strings are modelled as lists of characters (`Str`).  JavaScript `null` and
`undefined` are both modelled as `Option.none`; where a template literal
renders an absent value, `render` produces the non-empty placeholder text
(the url setter only ever writes `null`).  Asynchronous I/O is modelled by
threading the relevant state (the token cache) and recording the network
calls an operation performs, in order, in a `List NetCall`.  The token
returned by the token-exchange protocol and the id issued for a created
issue are abstracted as parameters, since they originate on the remote side.
-/

set_option maxRecDepth 4000

namespace Houston

/-- Model strings: lists of characters. -/
abbrev Str := List Char

/-- JavaScript `p.indexOf(pat) !== -1`: substring containment. -/
def containsSub : Str → Str → Bool
  | _, [] => true
  | [], _ :: _ => false
  | c :: cs, p :: ps => List.isPrefixOf (p :: ps) (c :: cs) || containsSub cs (p :: ps)

/-- JavaScript `String.prototype.replace` with a plain-string pattern:
replaces the first occurrence only; no occurrence leaves the string as is. -/
def replaceFirst (pat repl : Str) : Str → Str
  | [] => []
  | c :: cs =>
    if List.isPrefixOf pat (c :: cs) then repl ++ List.drop pat.length (c :: cs)
    else c :: replaceFirst pat repl cs

/-- Split a list at the first occurrence of a character. -/
def splitAtFirst (c : Char) : Str → Option (Str × Str)
  | [] => none
  | x :: xs =>
    if x = c then some ([], xs)
    else (splitAtFirst c xs).map (fun q => (x :: q.1, q.2))

/-- Split a list at the last occurrence of a character (the WHATWG URL parser
splits the authority at the last at-sign). -/
def splitAtLast (c : Char) (l : Str) : Option (Str × Str) :=
  (splitAtFirst c l.reverse).map (fun q => (q.2.reverse, q.1.reverse))

/-- Accumulator worker for `splitOnChar`. -/
def splitOnCharAux (c : Char) : Str → Str → List Str
  | [], acc => [acc.reverse]
  | x :: xs, acc =>
    if x = c then acc.reverse :: splitOnCharAux c xs []
    else splitOnCharAux c xs (x :: acc)

/-- JavaScript `String.prototype.split` with a one-character separator. -/
def splitOnChar (c : Char) (l : Str) : List Str := splitOnCharAux c l []

/-- Rendering of a possibly-absent string field inside a JavaScript template
literal: an absent value renders as a non-empty placeholder word. -/
def render : Option Str → Str
  | some s => s
  | none => ("null".data)

/-! String constants appearing in `github.ts`. -/

/-- The hosting domain token checked by the url setter (line 189). -/
def strGithub : Str := ("github".data)

/-- The default host (line 51). -/
def strGithubCom : Str := ("github.com".data)

/-- The https scheme prefix used by the normalization and the formatter. -/
def strHttps : Str := ("https://".data)

/-- The SSH-style prefix rewritten by the setter (line 194). -/
def strGitAt : Str := ("git@".data)

/-- Pattern of the colon-separator rewrite (line 195). -/
def patColon : Str := ("://github.com:".data)

/-- Replacement of the colon-separator rewrite (line 195). -/
def patSlash : Str := ("://github.com/".data)

/-- The suffix stripped by the setter (line 196) and appended by the getter. -/
def strDotGit : Str := (".git".data)

/-- The sentinel marking app-installation authentication (lines 168, 382). -/
def strInstallation : Str := ("installation".data)

/-- The corrected username for a username-only credential pair (line 211). -/
def strXAccessToken : Str := ("x-access-token".data)

/-- Prefix of a static-credential Authorization value (line 383). -/
def strBearerSp : Str := ("Bearer ".data)

/-- Prefix of an installation-token Authorization value (lines 391, 393). -/
def strTokenSp : Str := ("token ".data)

/-- The fixed label name (lines 343, 357, 367). -/
def strAppCenter : Str := ("AppCenter".data)

/-- The fixed label color (line 355). -/
def strLabelColor : Str := ("4c158a".data)

/-- The fixed label description (line 356). -/
def strLabelDesc : Str := ("Issues related to releasing on AppCenter".data)

/-- The default reference (line 88). -/
def strRefsHeadsMaster : Str := ("refs/heads/master".data)

/-- The default https port, elided from `URL.host`. -/
def str443 : Str := ("443".data)

/-! Model of the WHATWG URL parser (`new URL.URL(...)`), for the https URLs
and the character ranges this service produces and consumes (no
percent-encoding, no IPv6 hosts, no host normalization). -/

/-- The components of a parsed URL that the setter reads. -/
structure ParsedURL where
  host : Str
  pathname : Str
  username : Str
  password : Str
deriving DecidableEq

/-- Parse the `user[:password]` userinfo component (split at the first colon;
a missing password is the empty string). -/
def parseUserinfo (ui : Str) : Str × Str :=
  match splitAtFirst ':' ui with
  | none => (ui, [])
  | some q => q

/-- Parse `host[:port]`.  An empty host or a non-numeric port is a parse
failure; the default https port is elided; any other port stays in `host`. -/
def parseHostport (hp : Str) : Option Str :=
  match splitAtFirst ':' hp with
  | none => if hp = [] then none else some hp
  | some q =>
    if q.1 = [] then none
    else if q.2 = [] then some q.1
    else if q.2.all Char.isDigit then
      if q.2 = str443 then some q.1 else some (q.1 ++ ':' :: q.2)
    else none

/-- Parse an absolute https URL into the components the setter reads.
`none` models the `TypeError` the WHATWG parser throws on invalid input. -/
def parseURL (s : Str) : Option ParsedURL :=
  if List.isPrefixOf strHttps s then
    let rest := List.drop 8 s
    let split1 := splitAtFirst '/' rest
    let authority : Str :=
      match split1 with
      | none => rest
      | some q => q.1
    let pathname : Str :=
      match split1 with
      | none => ['/']
      | some q => '/' :: q.2
    match splitAtLast '@' authority with
    | none =>
      match parseHostport authority with
      | none => none
      | some h => some ⟨h, pathname, [], []⟩
    | some q =>
      match parseHostport q.2 with
      | none => none
      | some h =>
        let up := parseUserinfo q.1
        some ⟨h, pathname, up.1, up.2⟩
  else none

/-! The GitHub service class (`github.ts` lines 29-461).  The fields are the
instance properties; `username` and `repository` are `Option` because they
are unassigned until the url setter runs. -/

/-- The GitHub repository service state. -/
structure GitHub where
  host : Str := strGithubCom
  username : Option Str := none
  repository : Option Str := none
  authUsername : Option Str := none
  authPassword : Option Str := none
  reference : Str := strRefsHeadsMaster
  cache : List (Str × Str) := []
deriving DecidableEq

/-- The errors the url setter can raise: the explicit throw on a URL without
the hosting domain token (line 190), and the WHATWG parser's TypeError. -/
inductive SetUrlError where
  | invalidRepository
  | malformedUrl
deriving DecidableEq

/-- Node `url.format` restricted to the object the getter builds (line 174):
https protocol, optional auth component, host, pathname. -/
def urlFormat (auth : Option Str) (host pathname : Str) : Str :=
  strHttps ++ (match auth with | some a => a ++ ['@'] | none => []) ++ host ++ pathname

/-- The url getter (`get url`, lines 166-180). -/
def GitHub.url (g : GitHub) : Str :=
  let auth : Option Str :=
    if g.authUsername ≠ some strInstallation ∧
        (g.authUsername ≠ none ∨ g.authPassword ≠ none) then
      some (render g.authUsername ++ ':' :: render g.authPassword)
    else none
  urlFormat auth g.host ('/' :: render g.username ++ '/' :: render g.repository ++ strDotGit)

/-- The trailing-suffix replace step of the setter (line 196): strip one
trailing `.git`. -/
def stripDotGit (l : Str) : Str :=
  if List.isPrefixOf strDotGit.reverse l.reverse then List.take (l.length - 4) l else l

/-- The normalization pipeline of the url setter (lines 194-196): rewrite a
`git@` prefix to `https://`, rewrite the first colon-separator after the
public host to a slash, strip one trailing `.git`. -/
def normalizeUrl (p : Str) : Str :=
  let p1 := if List.isPrefixOf strGitAt p then replaceFirst strGitAt strHttps p else p
  stripDotGit (replaceFirst patColon patSlash p1)

/-- The field assignments of the url setter (lines 199-212): destructure the
pathname, assign host and credentials (empty URL credentials become `null`),
then reclassify a username-only credential pair as an app token. -/
def applyParsed (g : GitHub) (u : ParsedURL) : GitHub :=
  let parts := splitOnChar '/' u.pathname
  let g1 : GitHub := { g with
    host := u.host
    username := parts.get? 1
    repository := parts.get? 2
    authUsername := if u.username ≠ [] then some u.username else none
    authPassword := if u.password ≠ [] then some u.password else none }
  if g1.authUsername ≠ none ∧ g1.authPassword = none then
    { g1 with
        authPassword := g1.authUsername
        authUsername := some strXAccessToken }
  else g1

/-- The url setter (`set url`, lines 188-213), with the object state threaded
explicitly: the returned state equals the receiver when the setter throws
(no assignment happens before either throw site), and carries the updated
fields when it returns normally. -/
def GitHub.setUrl (g : GitHub) (p : Str) : GitHub × Option SetUrlError :=
  if containsSub p strGithub = false then
    (g, some SetUrlError.invalidRepository)
  else
    match parseURL (normalizeUrl p) with
    | none => (g, some SetUrlError.malformedUrl)
    | some u => (applyParsed g u, none)

/-! Authentication manager and publishers.  Network calls are recorded in
order; the cache is threaded explicitly. -/

/-- One outbound network call, with the payload fields the spec talks about. -/
inductive NetCall where
  | tokenExchange (installation : Str)
  | getRelease (owner repo ref : Str)
  | uploadAsset (assetName : Str) (label : Option Str)
  | getLabel (labelName : Str)
  | createLabel (labelName color description : Str)
  | createIssue (title body : Str) (labels : List Str)
deriving DecidableEq

/-- Token-cache lookup (newest entry wins). -/
def cacheGet (c : List (Str × Str)) (k : Str) : Option Str :=
  match c.find? (fun e => e.1 == k) with
  | some e => some e.2
  | none => none

/-- Token-cache store. -/
def cacheSet (c : List (Str × Str)) (k v : Str) : List (Str × Str) :=
  (k, v) :: c

/-- `getAuthorization` (lines 381-396).  `freshToken` abstracts the token the
exchange protocol returns on a cache miss.  Result: the Authorization header
value, the cache afterwards, and the network calls performed. -/
def GitHub.getAuthorization (g : GitHub) (freshToken : Str) :
    Str × List (Str × Str) × List NetCall :=
  if g.authUsername ≠ some strInstallation then
    (strBearerSp ++ render g.authPassword, g.cache, [])
  else
    let key := render g.authPassword
    match cacheGet g.cache key with
    | some tok => (strTokenSp ++ tok, g.cache, [])
    | none =>
      (strTokenSp ++ freshToken, cacheSet g.cache key freshToken,
        [NetCall.tokenExchange key])

/-- A package artifact: the fields `uploadPackage` reads or writes. -/
structure IPackage where
  path : Str
  name : Str
  description : Option Str := none
  githubId : Option Nat := none
deriving DecidableEq

/-- A log artifact: the fields `uploadLog` reads or writes. -/
structure ILog where
  title : Str
  body : Str
  githubId : Option Nat := none
deriving DecidableEq

/-- A failed GitHub API request, as observed by a rejected promise. -/
inductive ApiFailure where
  | notFound
  | other (status : Nat)
deriving DecidableEq

/-- `uploadPackage` (lines 264-324).  The idempotency guard (line 265)
returns the package; the unconditional `return pkg` on line 269 makes lines
271-323 (release lookup, MIME sniff, asset upload, copied return)
unreachable, so on every input the function returns the received object and
performs no network call. -/
def GitHub.uploadPackage (g : GitHub) (pkg : IPackage) : IPackage × List NetCall :=
  if pkg.githubId.isSome then (pkg, [])
  else (pkg, [])

/-- `uploadLog` (lines 335-372).  `labelFetch` is the outcome of the label
probe GET (line 342); any rejection makes `hasLabel` false.  `issueId` is the
id the issue-create POST returns; `freshToken` abstracts the token exchange
inside `getAuthorization` (line 340).  Result: the value returned (the guard
on line 336 returns undefined, modelled `none`), the token cache afterwards,
and the network calls performed, in order. -/
def GitHub.uploadLog (g : GitHub) (log : ILog) (freshToken : Str)
    (labelFetch : Except ApiFailure Unit) (issueId : Nat) :
    Option ILog × List (Str × Str) × List NetCall :=
  if log.githubId.isSome then (none, g.cache, [])
  else
    let a := g.getAuthorization freshToken
    let hasLabel : Bool :=
      match labelFetch with
      | Except.ok _ => true
      | Except.error _ => false
    let labelCalls :=
      NetCall.getLabel strAppCenter ::
        (if hasLabel then []
         else [NetCall.createLabel strAppCenter strLabelColor strLabelDesc])
    (some { log with githubId := some issueId }, a.2.1,
      a.2.2 ++ labelCalls ++ [NetCall.createIssue log.title log.body [strAppCenter]])

/-- `fs.read` into a fresh zero-filled 4100-byte buffer, at file offset 0 and
length 4100 (line 123): the byte count read and the buffer afterwards.  The
file is a list of bytes. -/
def fsReadChunk (file : List Nat) : Nat × List Nat :=
  let bytesRead := min 4100 file.length
  (bytesRead, file.take bytesRead ++ List.replicate (4100 - bytesRead) 0)

/-- The buffer `getFileType` (lines 116-140) hands to the content-type
detector: the buffer's first `bytesRead` bytes when fewer than 4100 bytes
were read (line 131), the whole buffer otherwise (line 133). -/
def getFileTypeBuffer (file : List Nat) : List Nat :=
  let r := fsReadChunk file
  if r.1 < 4100 then r.2.take r.1 else r.2

/-! Vocabulary for the accepted repository URL forms (spec section 6) and the
round-trip property. -/

/-- Characters usable in owner and repository path segments and in
credentials: alphanumerics, dash, underscore.  In particular no slash, colon,
at-sign or dot, so a segment cannot collide with the URL delimiters nor with
the normalization patterns. -/
def segCharB (c : Char) : Bool := c.isAlphanum || c == '-' || c == '_'

/-- A well-formed path segment or credential: non-empty, delimiter-free. -/
def segOk (s : Str) : Prop := s ≠ [] ∧ ∀ c ∈ s, segCharB c = true

/-- Well-formedness of an optional embedded credential pair. -/
def credsOk : Option (Str × Str) → Prop
  | none => True
  | some q => segOk q.1 ∧ segOk q.2

instance (s : Str) : Decidable (segOk s) :=
  inferInstanceAs (Decidable (s ≠ [] ∧ ∀ c ∈ s, segCharB c = true))

instance (x : Option (Str × Str)) : Decidable (credsOk x) :=
  match x with
  | none => isTrue trivial
  | some q => inferInstanceAs (Decidable (segOk q.1 ∧ segOk q.2))

/-- The `user:pass@` component of an accepted https URL form, when present. -/
def credsPart : Option (Str × Str) → Str
  | none => []
  | some q => q.1 ++ ':' :: q.2 ++ ['@']

/-- The optional trailing `.git` of an accepted URL form. -/
def gitSuffixStr : Bool → Str
  | true => strDotGit
  | false => []

/-- Accepted form `https://[user[:pass]@]github.com/owner/name[.git]`. -/
def formHttps (creds : Option (Str × Str)) (o n : Str) (git : Bool) : Str :=
  strHttps ++ credsPart creds ++ strGithubCom ++ '/' :: o ++ '/' :: n ++ gitSuffixStr git

/-- Accepted form `git@github.com:owner/name[.git]`. -/
def formScp (o n : Str) (git : Bool) : Str :=
  strGitAt ++ strGithubCom ++ ':' :: o ++ '/' :: n ++ gitSuffixStr git

/-- Accepted colon-separator form `https://github.com:owner/name`. -/
def formColon (o n : Str) : Str :=
  strHttps ++ strGithubCom ++ ':' :: o ++ '/' :: n

/-- The setter outcome `r` parsed successfully into the repository triple
`(github.com, o, n)`, and the identity's formatted URL points at that same
triple (credential placement aside): it is exactly the https URL for
`/o/n.git` on `github.com`, with some optional auth component. -/
def tripleOk (r : GitHub × Option SetUrlError) (o n : Str) : Prop :=
  r.2 = none ∧ r.1.host = strGithubCom ∧ r.1.username = some o ∧
    r.1.repository = some n ∧
    ∃ a, r.1.url = urlFormat a strGithubCom ('/' :: o ++ '/' :: n ++ strDotGit)

/-! Concrete sample data used by the witness theorems. -/

/-- Sample owner segment. -/
def exOwner : Str := ("elementary".data)

/-- Sample repository segment. -/
def exName : Str := ("houston".data)

/-- Sample embedded username. -/
def exUser : Str := ("user1".data)

/-- Sample embedded password. -/
def exPass : Str := ("pass1".data)

/-- Sample token value. -/
def exToken : Str := ("tok123".data)

/-- Sample raw URL without the hosting domain token. -/
def exUrlNoGithub : Str := ("https://gitlab.com/foo/bar".data)

/-- Sample raw URL with a username-only credential. -/
def exUrlTokenOnly : Str := ("https://tok123@github.com/elementary/houston".data)

/-! Facts about the string helpers. -/

theorem isPrefixOf_cons_cons (a b : Char) (as bs : Str) :
    List.isPrefixOf (a :: as) (b :: bs) = (a == b && List.isPrefixOf as bs) := rfl

theorem isPrefixOf_refl_append (a b : Str) : List.isPrefixOf a (a ++ b) = true := by
  induction a with
  | nil => cases b <;> rfl
  | cons c cs ih => simp [isPrefixOf_cons_cons, ih]

theorem isPrefixOf_cons_ne (a b : Char) (as bs : Str) (h : a ≠ b) :
    List.isPrefixOf (a :: as) (b :: bs) = false := by
  simp [isPrefixOf_cons_cons, h]

theorem isPrefixOf_append_mismatch (a : Str) (x y : Char) (s t : Str) (hxy : x ≠ y) :
    List.isPrefixOf (a ++ x :: s) (a ++ y :: t) = false := by
  induction a with
  | nil => simpa using isPrefixOf_cons_ne x y s t hxy
  | cons c cs ih =>
    rw [List.cons_append, List.cons_append, isPrefixOf_cons_cons, ih, Bool.and_false]

theorem isPrefixOf_sep_false (d sep : Char) (rest : Str) (hds : d ≠ sep) :
    ∀ (u w z : Str), (∀ c ∈ w, c ≠ sep) → (∀ c ∈ u, c ≠ d) →
      List.isPrefixOf (w ++ d :: rest) (u ++ sep :: z) = false := by
  intro u
  induction u with
  | nil =>
    intro w z hw _
    match w with
    | [] => exact isPrefixOf_cons_ne d sep rest z hds
    | c :: w' => exact isPrefixOf_cons_ne c sep _ z (hw c (by simp))
  | cons a u' ih =>
    intro w z hw hu
    have ha : a ≠ d := hu a (by simp)
    match w with
    | [] => exact isPrefixOf_cons_ne d a rest _ (Ne.symm ha)
    | c :: w' =>
      have hrec := ih w' z (fun x hx => hw x (by simp [hx]))
        (fun x hx => hu x (by simp [hx]))
      simp [isPrefixOf_cons_cons, hrec]

theorem replaceFirst_cons (pat repl : Str) (c : Char) (cs : Str) :
    replaceFirst pat repl (c :: cs) =
      if List.isPrefixOf pat (c :: cs) then repl ++ List.drop pat.length (c :: cs)
      else c :: replaceFirst pat repl cs := rfl

theorem replaceFirst_skip (c0 : Char) (pt r : Str) :
    ∀ (l rest : Str), (∀ c ∈ l, c ≠ c0) →
      replaceFirst (c0 :: pt) r (l ++ rest) = l ++ replaceFirst (c0 :: pt) r rest := by
  intro l
  induction l with
  | nil => intro rest _; rfl
  | cons c cs ih =>
    intro rest h
    have hc : c0 ≠ c := Ne.symm (h c (by simp))
    have hcond := isPrefixOf_cons_ne c0 c pt (cs ++ rest) hc
    simp only [List.cons_append, replaceFirst_cons, hcond, Bool.false_eq_true, if_false,
      List.cons.injEq, true_and]
    exact ih rest (fun x hx => h x (by simp [hx]))

theorem replaceFirst_all_ne (c0 : Char) (pt r : Str) :
    ∀ l : Str, (∀ c ∈ l, c ≠ c0) → replaceFirst (c0 :: pt) r l = l := by
  intro l
  induction l with
  | nil => intro _; rfl
  | cons c cs ih =>
    intro h
    have hc : c0 ≠ c := Ne.symm (h c (by simp))
    have hcond := isPrefixOf_cons_ne c0 c pt cs hc
    simp only [replaceFirst_cons, hcond, Bool.false_eq_true, if_false, List.cons.injEq, true_and]
    exact ih (fun x hx => h x (by simp [hx]))

theorem replaceFirst_here (c : Char) (pt r b : Str) :
    replaceFirst (c :: pt) r ((c :: pt) ++ b) = r ++ b := by
  have hcond : List.isPrefixOf (c :: pt) (c :: (pt ++ b)) = true :=
    isPrefixOf_refl_append (c :: pt) b
  rw [show (c :: pt) ++ b = c :: (pt ++ b) from rfl, replaceFirst_cons]
  simp only [hcond, if_true]
  congr 1
  rw [show (c :: pt).length = pt.length + 1 from rfl]
  rw [show List.drop (pt.length + 1) (c :: (pt ++ b)) = List.drop pt.length (pt ++ b) from
    List.drop_succ_cons]
  exact List.drop_left pt b

theorem replaceFirst_colon_fires (pt r A tail : Str) (hA : ∀ c ∈ A, c ≠ ':') :
    replaceFirst (':' :: pt) r (A ++ ((':' :: pt) ++ tail)) = A ++ (r ++ tail) := by
  rw [replaceFirst_skip ':' pt r A ((':' :: pt) ++ tail) hA, replaceFirst_here]

theorem replaceFirst_one_colon (pt r A C : Str)
    (hA : ∀ c ∈ A, c ≠ ':') (hC : ∀ c ∈ C, c ≠ ':')
    (h1 : List.isPrefixOf pt C = false) :
    replaceFirst (':' :: pt) r (A ++ (':' :: C)) = A ++ (':' :: C) := by
  rw [replaceFirst_skip ':' pt r A (':' :: C) hA]
  have hcond : List.isPrefixOf (':' :: pt) (':' :: C) = false := by
    simp [isPrefixOf_cons_cons, h1]
  rw [replaceFirst_cons]
  simp only [hcond, Bool.false_eq_true, if_false]
  rw [replaceFirst_all_ne ':' pt r C hC]

theorem replaceFirst_two_colons (pt r A B C : Str)
    (hA : ∀ c ∈ A, c ≠ ':') (hB : ∀ c ∈ B, c ≠ ':') (hC : ∀ c ∈ C, c ≠ ':')
    (h1 : List.isPrefixOf pt (B ++ (':' :: C)) = false)
    (h2 : List.isPrefixOf pt C = false) :
    replaceFirst (':' :: pt) r (A ++ (':' :: (B ++ (':' :: C)))) =
      A ++ (':' :: (B ++ (':' :: C))) := by
  rw [replaceFirst_skip ':' pt r A (':' :: (B ++ (':' :: C))) hA]
  have hcond : List.isPrefixOf (':' :: pt) (':' :: (B ++ (':' :: C))) = false := by
    simp [isPrefixOf_cons_cons, h1]
  rw [replaceFirst_cons]
  simp only [hcond, Bool.false_eq_true, if_false]
  rw [replaceFirst_one_colon pt r B C hB hC h2]

theorem splitAtFirst_not_mem (c : Char) : ∀ l : Str, c ∉ l → splitAtFirst c l = none := by
  intro l
  induction l with
  | nil => intro _; rfl
  | cons x xs ih =>
    intro h
    have hx : ¬x = c := fun he => h (by simp [he])
    have hxs : c ∉ xs := fun hm => h (by simp [hm])
    simp [splitAtFirst, hx, ih hxs]

theorem splitAtFirst_append (c : Char) : ∀ (a b : Str), c ∉ a →
    splitAtFirst c (a ++ c :: b) = some (a, b) := by
  intro a
  induction a with
  | nil => intro b _; simp [splitAtFirst]
  | cons x xs ih =>
    intro b h
    have hx : ¬x = c := fun he => h (by simp [he])
    have hxs : c ∉ xs := fun hm => h (by simp [hm])
    simp [splitAtFirst, hx, ih b hxs]

theorem splitAtLast_append (c : Char) (a b : Str) (ha : c ∉ a) (hb : c ∉ b) :
    splitAtLast c (a ++ c :: b) = some (a, b) := by
  unfold splitAtLast
  rw [show (a ++ c :: b).reverse = b.reverse ++ c :: a.reverse by simp]
  rw [splitAtFirst_append c b.reverse a.reverse (by simpa using hb)]
  simp

theorem splitAtLast_not_mem (c : Char) (l : Str) (h : c ∉ l) : splitAtLast c l = none := by
  unfold splitAtLast
  rw [splitAtFirst_not_mem c l.reverse (by simpa using h)]
  rfl

theorem splitOnCharAux_no (c : Char) : ∀ (a acc : Str), c ∉ a →
    splitOnCharAux c a acc = [acc.reverse ++ a] := by
  intro a
  induction a with
  | nil => intro acc _; simp [splitOnCharAux]
  | cons x xs ih =>
    intro acc h
    have hx : ¬x = c := fun he => h (by simp [he])
    have hxs : c ∉ xs := fun hm => h (by simp [hm])
    simp [splitOnCharAux, hx, ih (x :: acc) hxs, List.append_assoc]

theorem splitOnCharAux_sep (c : Char) (b : Str) : ∀ (a acc : Str), c ∉ a →
    splitOnCharAux c (a ++ c :: b) acc = (acc.reverse ++ a) :: splitOnCharAux c b [] := by
  intro a
  induction a with
  | nil => intro acc _; simp [splitOnCharAux]
  | cons x xs ih =>
    intro acc h
    have hx : ¬x = c := fun he => h (by simp [he])
    have hxs : c ∉ xs := fun hm => h (by simp [hm])
    simp [splitOnCharAux, hx, ih (x :: acc) hxs, List.append_assoc]

theorem splitOnChar_slash_path (o n : Str) (ho : '/' ∉ o) (hn : '/' ∉ n) :
    splitOnChar '/' ('/' :: (o ++ ('/' :: n))) = [[], o, n] := by
  unfold splitOnChar
  rw [show splitOnCharAux '/' ('/' :: (o ++ ('/' :: n))) [] =
      [].reverse :: splitOnCharAux '/' (o ++ ('/' :: n)) [] by simp [splitOnCharAux]]
  rw [splitOnCharAux_sep '/' n o [] ho, splitOnCharAux_no '/' n [] hn]
  simp

theorem containsSub_append_pat (pat : Str) : ∀ (a b : Str),
    containsSub (a ++ (pat ++ b)) pat = true := by
  intro a
  induction a with
  | nil =>
    intro b
    match pat with
    | [] => cases b <;> rfl
    | p :: ps =>
      show containsSub (p :: (ps ++ b)) (p :: ps) = true
      rw [containsSub]
      rw [show p :: (ps ++ b) = (p :: ps) ++ b from rfl]
      rw [isPrefixOf_refl_append, Bool.true_or]
  | cons x xs ih =>
    intro b
    match pat with
    | [] => rfl
    | p :: ps =>
      show containsSub (x :: (xs ++ ((p :: ps) ++ b))) (p :: ps) = true
      rw [containsSub, ih b, Bool.or_true]

/-! Facts about well-formed segments. -/

theorem segCharB_ne (c : Char) (h : segCharB c = true) :
    c ≠ '/' ∧ c ≠ ':' ∧ c ≠ '@' ∧ c ≠ '.' := by
  refine ⟨?_, ?_, ?_, ?_⟩ <;> intro he <;> subst he <;> exact absurd h (by decide)

theorem segOk_ne_slash (s : Str) (h : segOk s) : ∀ c ∈ s, c ≠ '/' :=
  fun c hc => (segCharB_ne c (h.2 c hc)).1

theorem segOk_ne_colon (s : Str) (h : segOk s) : ∀ c ∈ s, c ≠ ':' :=
  fun c hc => (segCharB_ne c (h.2 c hc)).2.1

theorem segOk_ne_at (s : Str) (h : segOk s) : ∀ c ∈ s, c ≠ '@' :=
  fun c hc => (segCharB_ne c (h.2 c hc)).2.2.1

theorem segOk_ne_dot (s : Str) (h : segOk s) : ∀ c ∈ s, c ≠ '.' :=
  fun c hc => (segCharB_ne c (h.2 c hc)).2.2.2

theorem segOk_not_mem_slash (s : Str) (h : segOk s) : '/' ∉ s :=
  fun hm => absurd rfl (segOk_ne_slash s h _ hm)

theorem segOk_not_mem_colon (s : Str) (h : segOk s) : ':' ∉ s :=
  fun hm => absurd rfl (segOk_ne_colon s h _ hm)

theorem segOk_not_mem_at (s : Str) (h : segOk s) : '@' ∉ s :=
  fun hm => absurd rfl (segOk_ne_at s h _ hm)

/-! Facts about the `.git` strip. -/

theorem stripDotGit_append (x : Str) : stripDotGit (x ++ strDotGit) = x := by
  unfold stripDotGit
  rw [show (x ++ strDotGit).reverse = strDotGit.reverse ++ x.reverse by simp]
  rw [isPrefixOf_refl_append]
  simp only [if_true]
  rw [show (x ++ strDotGit).length - 4 = x.length by simp [strDotGit, List.length_append]]
  exact List.take_left x strDotGit

theorem stripDotGit_keep (pre n : Str) (hn : segOk n) :
    stripDotGit (pre ++ ('/' :: n)) = pre ++ ('/' :: n) := by
  unfold stripDotGit
  have hrev : (pre ++ ('/' :: n)).reverse = n.reverse ++ ('/' :: pre.reverse) := by simp
  have hfalse : List.isPrefixOf strDotGit.reverse ((pre ++ ('/' :: n)).reverse) = false := by
    rw [hrev]
    rw [show strDotGit.reverse = ("tig".data) ++ '.' :: [] from rfl]
    exact isPrefixOf_sep_false '.' '/' [] (by decide) n.reverse ("tig".data) pre.reverse
      (by decide) (fun c hc => segOk_ne_dot n hn c (by simpa using hc))
  rw [hfalse]
  simp only [Bool.false_eq_true, if_false]

theorem stripDotGit_suffix (pre n : Str) (hn : segOk n) (git : Bool) :
    stripDotGit (pre ++ ('/' :: (n ++ gitSuffixStr git))) = pre ++ ('/' :: n) := by
  cases git with
  | true =>
    rw [show pre ++ ('/' :: (n ++ gitSuffixStr true)) = (pre ++ ('/' :: n)) ++ strDotGit by
      simp [gitSuffixStr, List.append_assoc]]
    exact stripDotGit_append (pre ++ ('/' :: n))
  | false =>
    rw [show gitSuffixStr false = [] from rfl, List.append_nil]
    exact stripDotGit_keep pre n hn

/-! Normalization of the three accepted URL forms. -/

theorem strHttps_decomp : strHttps = ("https".data) ++ (':' :: ('/' :: ('/' :: []))) := rfl

theorem patColon_decomp : patColon = ':' :: ("//github.com:".data) := rfl

theorem not_gitat (X : Str) : List.isPrefixOf strGitAt (strHttps ++ X) = false := by
  show List.isPrefixOf ('g' :: ("it@".data)) ('h' :: (("ttps://".data) ++ X)) = false
  exact isPrefixOf_cons_ne 'g' 'h' _ _ (by decide)

theorem gitat_fires (b : Str) :
    replaceFirst strGitAt strHttps (strGitAt ++ b) = strHttps ++ b :=
  replaceFirst_here 'g' ("it@".data) strHttps b

theorem rfc_nofire_creds (u p E : Str) (hu : segOk u) (hp : segOk p)
    (hE : ∀ c ∈ E, c ≠ ':') :
    replaceFirst patColon patSlash
        (strHttps ++ (u ++ (':' :: (p ++ ('@' :: (strGithubCom ++ ('/' :: E))))))) =
      strHttps ++ (u ++ (':' :: (p ++ ('@' :: (strGithubCom ++ ('/' :: E)))))) := by
  have hshape : strHttps ++ (u ++ (':' :: (p ++ ('@' :: (strGithubCom ++ ('/' :: E)))))) =
      ("https".data) ++ (':' :: (('/' :: ('/' :: u)) ++
        (':' :: (p ++ ('@' :: (strGithubCom ++ ('/' :: E))))))) := by
    simp [strHttps_decomp, List.cons_append, List.append_assoc]
  rw [hshape, patColon_decomp]
  apply replaceFirst_two_colons
  · decide
  · intro c hc
    rcases List.mem_cons.mp hc with h | hc
    · subst h; decide
    rcases List.mem_cons.mp hc with h | hc
    · subst h; decide
    · exact segOk_ne_colon u hu c hc
  · intro c hc
    rcases List.mem_append.mp hc with hc | hc
    · exact segOk_ne_colon p hp c hc
    rcases List.mem_cons.mp hc with h | hc
    · subst h; decide
    rcases List.mem_append.mp hc with hc | hc
    · intro he; subst he; revert hc; decide
    rcases List.mem_cons.mp hc with h | hc
    · subst h; decide
    · exact hE c hc
  · rw [show ('/' :: ('/' :: u)) ++ (':' :: (p ++ ('@' :: (strGithubCom ++ ('/' :: E))))) =
        '/' :: ('/' :: (u ++ (':' :: (p ++ ('@' :: (strGithubCom ++ ('/' :: E))))))) from by simp]
    rw [show ("//github.com:".data) =
        '/' :: ('/' :: (("github".data) ++ ('.' :: ("com:".data)))) from rfl]
    rw [isPrefixOf_cons_cons, isPrefixOf_cons_cons]
    rw [isPrefixOf_sep_false '.' ':' ("com:".data) (by decide)
      u ("github".data) (p ++ ('@' :: (strGithubCom ++ ('/' :: E)))) (by decide)
      (segOk_ne_dot u hu)]
    simp
  · show List.isPrefixOf (([] : Str) ++ '/' :: ("/github.com:".data))
        (p ++ ('@' :: (strGithubCom ++ ('/' :: E)))) = false
    exact isPrefixOf_sep_false '/' '@' ("/github.com:".data) (by decide)
      p [] (strGithubCom ++ ('/' :: E)) (by simp) (segOk_ne_slash p hp)

theorem rfc_nofire_nocreds (E : Str) (hE : ∀ c ∈ E, c ≠ ':') :
    replaceFirst patColon patSlash (strHttps ++ (strGithubCom ++ ('/' :: E))) =
      strHttps ++ (strGithubCom ++ ('/' :: E)) := by
  have hshape : strHttps ++ (strGithubCom ++ ('/' :: E)) =
      ("https".data) ++ (':' :: ('/' :: ('/' :: (strGithubCom ++ ('/' :: E))))) := by
    simp [strHttps_decomp, List.cons_append, List.append_assoc]
  rw [hshape, patColon_decomp]
  apply replaceFirst_one_colon
  · decide
  · intro c hc
    rcases List.mem_cons.mp hc with h | hc
    · subst h; decide
    rcases List.mem_cons.mp hc with h | hc
    · subst h; decide
    rcases List.mem_append.mp hc with hc | hc
    · intro he; subst he; revert hc; decide
    rcases List.mem_cons.mp hc with h | hc
    · subst h; decide
    · exact hE c hc
  · show List.isPrefixOf (("//github.com".data) ++ ':' :: ([] : Str))
        (("//github.com".data) ++ '/' :: E) = false
    exact isPrefixOf_append_mismatch ("//github.com".data) ':' '/' [] E (by decide)

theorem rfc_fires (R : Str) :
    replaceFirst patColon patSlash (strHttps ++ (strGithubCom ++ (':' :: R))) =
      strHttps ++ (strGithubCom ++ ('/' :: R)) := by
  rw [patColon_decomp]
  exact replaceFirst_colon_fires ("//github.com:".data) patSlash ("https".data) R (by decide)

theorem pathTail_ne_colon (o n : Str) (ho : segOk o) (hn : segOk n) (git : Bool) :
    ∀ c ∈ o ++ ('/' :: (n ++ gitSuffixStr git)), c ≠ ':' := by
  intro c hc
  rcases List.mem_append.mp hc with hc | hc
  · exact segOk_ne_colon o ho c hc
  rcases List.mem_cons.mp hc with h | hc
  · subst h; decide
  rcases List.mem_append.mp hc with hc | hc
  · exact segOk_ne_colon n hn c hc
  · cases git with
    | true => intro he; subst he; revert hc; decide
    | false => exact absurd hc (List.not_mem_nil c)

theorem normalizeUrl_formHttps_creds (u p o n : Str) (git : Bool)
    (hu : segOk u) (hp : segOk p) (ho : segOk o) (hn : segOk n) :
    normalizeUrl (formHttps (some (u, p)) o n git) =
      strHttps ++ (u ++ (':' :: (p ++ ('@' :: (strGithubCom ++ ('/' :: (o ++ ('/' :: n)))))))) := by
  unfold normalizeUrl
  have hshape : formHttps (some (u, p)) o n git =
      strHttps ++ (u ++ (':' :: (p ++ ('@' :: (strGithubCom ++
        ('/' :: (o ++ ('/' :: (n ++ gitSuffixStr git))))))))) := by
    simp [formHttps, credsPart, List.cons_append, List.append_assoc]
  rw [hshape, not_gitat]
  simp only [Bool.false_eq_true, if_false]
  rw [rfc_nofire_creds u p (o ++ ('/' :: (n ++ gitSuffixStr git))) hu hp
    (pathTail_ne_colon o n ho hn git)]
  have hshape2 : strHttps ++ (u ++ (':' :: (p ++ ('@' :: (strGithubCom ++
        ('/' :: (o ++ ('/' :: (n ++ gitSuffixStr git))))))))) =
      (strHttps ++ (u ++ (':' :: (p ++ ('@' :: (strGithubCom ++ ('/' :: o))))))) ++
        ('/' :: (n ++ gitSuffixStr git)) := by
    simp [List.append_assoc]
  rw [hshape2, stripDotGit_suffix _ n hn git]
  simp [List.append_assoc]

theorem normalizeUrl_formHttps_nocreds (o n : Str) (git : Bool)
    (ho : segOk o) (hn : segOk n) :
    normalizeUrl (formHttps none o n git) =
      strHttps ++ (strGithubCom ++ ('/' :: (o ++ ('/' :: n)))) := by
  unfold normalizeUrl
  have hshape : formHttps none o n git =
      strHttps ++ (strGithubCom ++ ('/' :: (o ++ ('/' :: (n ++ gitSuffixStr git))))) := by
    simp [formHttps, credsPart, List.cons_append, List.append_assoc]
  rw [hshape, not_gitat]
  simp only [Bool.false_eq_true, if_false]
  rw [rfc_nofire_nocreds (o ++ ('/' :: (n ++ gitSuffixStr git)))
    (pathTail_ne_colon o n ho hn git)]
  have hshape2 : strHttps ++ (strGithubCom ++ ('/' :: (o ++ ('/' :: (n ++ gitSuffixStr git))))) =
      (strHttps ++ (strGithubCom ++ ('/' :: o))) ++ ('/' :: (n ++ gitSuffixStr git)) := by
    simp [List.append_assoc]
  rw [hshape2, stripDotGit_suffix _ n hn git]
  simp [List.append_assoc]

theorem normalizeUrl_formScp (o n : Str) (git : Bool) (ho : segOk o) (hn : segOk n) :
    normalizeUrl (formScp o n git) =
      strHttps ++ (strGithubCom ++ ('/' :: (o ++ ('/' :: n)))) := by
  unfold normalizeUrl
  have hshape : formScp o n git =
      strGitAt ++ (strGithubCom ++ (':' :: (o ++ ('/' :: (n ++ gitSuffixStr git))))) := by
    simp [formScp, List.cons_append, List.append_assoc]
  have hpref : List.isPrefixOf strGitAt (formScp o n git) = true := by
    rw [hshape]; exact isPrefixOf_refl_append strGitAt _
  rw [hpref]
  simp only [if_true]
  rw [hshape, gitat_fires, rfc_fires (o ++ ('/' :: (n ++ gitSuffixStr git)))]
  have hshape2 : strHttps ++ (strGithubCom ++ ('/' :: (o ++ ('/' :: (n ++ gitSuffixStr git))))) =
      (strHttps ++ (strGithubCom ++ ('/' :: o))) ++ ('/' :: (n ++ gitSuffixStr git)) := by
    simp [List.append_assoc]
  rw [hshape2, stripDotGit_suffix _ n hn git]
  simp [List.append_assoc]

theorem normalizeUrl_formColon (o n : Str) (ho : segOk o) (hn : segOk n) :
    normalizeUrl (formColon o n) =
      strHttps ++ (strGithubCom ++ ('/' :: (o ++ ('/' :: n)))) := by
  unfold normalizeUrl
  have hshape : formColon o n = strHttps ++ (strGithubCom ++ (':' :: (o ++ ('/' :: n)))) := by
    simp [formColon, List.cons_append, List.append_assoc]
  rw [hshape, not_gitat]
  simp only [Bool.false_eq_true, if_false]
  rw [rfc_fires (o ++ ('/' :: n))]
  have hshape2 : strHttps ++ (strGithubCom ++ ('/' :: (o ++ ('/' :: n)))) =
      (strHttps ++ (strGithubCom ++ ('/' :: o))) ++ ('/' :: n) := by
    simp [List.append_assoc]
  rw [hshape2, stripDotGit_keep _ n hn]

/-! Parsing the canonical normalized URLs. -/

theorem strGithubCom_decomp : strGithubCom = strGithub ++ (".com".data) := rfl

theorem slash_not_mem_auth (u p : Str) (hu : segOk u) (hp : segOk p) :
    '/' ∉ u ++ (':' :: (p ++ ('@' :: strGithubCom))) := by
  intro hm
  rcases List.mem_append.mp hm with hc | hc
  · exact segOk_ne_slash u hu '/' hc rfl
  rcases List.mem_cons.mp hc with h | hc
  · exact absurd h (by decide)
  rcases List.mem_append.mp hc with hc | hc
  · exact segOk_ne_slash p hp '/' hc rfl
  rcases List.mem_cons.mp hc with h | hc
  · exact absurd h (by decide)
  · revert hc; decide

theorem at_not_mem_userinfo (u p : Str) (hu : segOk u) (hp : segOk p) :
    '@' ∉ u ++ (':' :: p) := by
  intro hm
  rcases List.mem_append.mp hm with hc | hc
  · exact segOk_ne_at u hu '@' hc rfl
  rcases List.mem_cons.mp hc with h | hc
  · exact absurd h (by decide)
  · exact segOk_ne_at p hp '@' hc rfl

theorem parseUserinfo_pair (u p : Str) (hu : segOk u) :
    parseUserinfo (u ++ (':' :: p)) = (u, p) := by
  unfold parseUserinfo
  rw [splitAtFirst_append ':' u p (segOk_not_mem_colon u hu)]

theorem parseURL_canonical_creds (u p o n : Str) (hu : segOk u) (hp : segOk p) :
    parseURL (strHttps ++ (u ++ (':' :: (p ++ ('@' :: (strGithubCom ++
        ('/' :: (o ++ ('/' :: n))))))))) =
      some ⟨strGithubCom, '/' :: (o ++ ('/' :: n)), u, p⟩ := by
  have hsplit : splitAtFirst '/'
      (u ++ (':' :: (p ++ ('@' :: (strGithubCom ++ ('/' :: (o ++ ('/' :: n)))))))) =
      some (u ++ (':' :: (p ++ ('@' :: strGithubCom))), o ++ ('/' :: n)) := by
    rw [show u ++ (':' :: (p ++ ('@' :: (strGithubCom ++ ('/' :: (o ++ ('/' :: n))))))) =
        (u ++ (':' :: (p ++ ('@' :: strGithubCom)))) ++ ('/' :: (o ++ ('/' :: n))) from by
      simp [List.append_assoc]]
    exact splitAtFirst_append '/' _ _ (slash_not_mem_auth u p hu hp)
  have hlast : splitAtLast '@' (u ++ (':' :: (p ++ ('@' :: strGithubCom)))) =
      some (u ++ (':' :: p), strGithubCom) := by
    rw [show u ++ (':' :: (p ++ ('@' :: strGithubCom))) =
        (u ++ (':' :: p)) ++ ('@' :: strGithubCom) from by simp [List.append_assoc]]
    exact splitAtLast_append '@' _ _ (at_not_mem_userinfo u p hu hp) (by decide)
  have hhp : parseHostport strGithubCom = some strGithubCom := by decide
  have hui := parseUserinfo_pair u p hu
  unfold parseURL
  rw [show (8 : Nat) = strHttps.length from rfl]
  simp only [isPrefixOf_refl_append, if_true, List.drop_left, hsplit, hlast, hhp, hui]

theorem parseURL_canonical_nocreds (o n : Str) :
    parseURL (strHttps ++ (strGithubCom ++ ('/' :: (o ++ ('/' :: n))))) =
      some ⟨strGithubCom, '/' :: (o ++ ('/' :: n)), [], []⟩ := by
  have hsplit : splitAtFirst '/' (strGithubCom ++ ('/' :: (o ++ ('/' :: n)))) =
      some (strGithubCom, o ++ ('/' :: n)) :=
    splitAtFirst_append '/' _ _ (by decide)
  have hlast : splitAtLast '@' strGithubCom = none :=
    splitAtLast_not_mem '@' strGithubCom (by decide)
  have hhp : parseHostport strGithubCom = some strGithubCom := by decide
  unfold parseURL
  rw [show (8 : Nat) = strHttps.length from rfl]
  simp only [isPrefixOf_refl_append, if_true, List.drop_left, hsplit, hlast, hhp]

/-! Applying a canonical parse result to the identity. -/

theorem applyParsed_creds (g : GitHub) (o n U P : Str)
    (ho : '/' ∉ o) (hn : '/' ∉ n) (hU : U ≠ []) (hP : P ≠ []) :
    applyParsed g ⟨strGithubCom, '/' :: (o ++ ('/' :: n)), U, P⟩ =
      { g with
        host := strGithubCom
        username := some o
        repository := some n
        authUsername := some U
        authPassword := some P } := by
  unfold applyParsed
  rw [splitOnChar_slash_path o n ho hn]
  simp [hU, hP]

theorem applyParsed_nocreds (g : GitHub) (o n : Str) (ho : '/' ∉ o) (hn : '/' ∉ n) :
    applyParsed g ⟨strGithubCom, '/' :: (o ++ ('/' :: n)), [], []⟩ =
      { g with
        host := strGithubCom
        username := some o
        repository := some n
        authUsername := none
        authPassword := none } := by
  unfold applyParsed
  rw [splitOnChar_slash_path o n ho hn]
  simp

/-! Hosting-domain containment for the accepted forms. -/

theorem containsSub_formHttps (creds : Option (Str × Str)) (o n : Str) (git : Bool) :
    containsSub (formHttps creds o n git) strGithub = true := by
  have hshape : formHttps creds o n git =
      (strHttps ++ credsPart creds) ++ (strGithub ++
        ((".com".data) ++ ('/' :: o ++ '/' :: n ++ gitSuffixStr git))) := by
    simp [formHttps, strGithubCom_decomp, List.append_assoc]
  rw [hshape]
  exact containsSub_append_pat strGithub _ _

theorem containsSub_formScp (o n : Str) (git : Bool) :
    containsSub (formScp o n git) strGithub = true := by
  have hshape : formScp o n git =
      strGitAt ++ (strGithub ++ ((".com".data) ++ (':' :: o ++ '/' :: n ++ gitSuffixStr git))) := by
    simp [formScp, strGithubCom_decomp, List.append_assoc]
  rw [hshape]
  exact containsSub_append_pat strGithub _ _

theorem containsSub_formColon (o n : Str) :
    containsSub (formColon o n) strGithub = true := by
  have hshape : formColon o n =
      strHttps ++ (strGithub ++ ((".com".data) ++ (':' :: o ++ '/' :: n))) := by
    simp [formColon, strGithubCom_decomp, List.append_assoc]
  rw [hshape]
  exact containsSub_append_pat strGithub _ _

/-! The url setter on each accepted form. -/

theorem setUrl_formHttps_creds (g : GitHub) (u p o n : Str) (git : Bool)
    (hu : segOk u) (hp : segOk p) (ho : segOk o) (hn : segOk n) :
    g.setUrl (formHttps (some (u, p)) o n git) =
      ({ g with
        host := strGithubCom
        username := some o
        repository := some n
        authUsername := some u
        authPassword := some p }, none) := by
  unfold GitHub.setUrl
  simp only [containsSub_formHttps, Bool.true_eq_false, if_false]
  rw [normalizeUrl_formHttps_creds u p o n git hu hp ho hn,
    parseURL_canonical_creds u p o n hu hp]
  simp only []
  rw [applyParsed_creds g o n u p (segOk_not_mem_slash o ho) (segOk_not_mem_slash n hn)
    hu.1 hp.1]

theorem setUrl_formHttps_nocreds (g : GitHub) (o n : Str) (git : Bool)
    (ho : segOk o) (hn : segOk n) :
    g.setUrl (formHttps none o n git) =
      ({ g with
        host := strGithubCom
        username := some o
        repository := some n
        authUsername := none
        authPassword := none }, none) := by
  unfold GitHub.setUrl
  simp only [containsSub_formHttps, Bool.true_eq_false, if_false]
  rw [normalizeUrl_formHttps_nocreds o n git ho hn, parseURL_canonical_nocreds o n]
  simp only []
  rw [applyParsed_nocreds g o n (segOk_not_mem_slash o ho) (segOk_not_mem_slash n hn)]

theorem setUrl_formScp (g : GitHub) (o n : Str) (git : Bool)
    (ho : segOk o) (hn : segOk n) :
    g.setUrl (formScp o n git) =
      ({ g with
        host := strGithubCom
        username := some o
        repository := some n
        authUsername := none
        authPassword := none }, none) := by
  unfold GitHub.setUrl
  simp only [containsSub_formScp, Bool.true_eq_false, if_false]
  rw [normalizeUrl_formScp o n git ho hn, parseURL_canonical_nocreds o n]
  simp only []
  rw [applyParsed_nocreds g o n (segOk_not_mem_slash o ho) (segOk_not_mem_slash n hn)]

theorem setUrl_formColon (g : GitHub) (o n : Str) (ho : segOk o) (hn : segOk n) :
    g.setUrl (formColon o n) =
      ({ g with
        host := strGithubCom
        username := some o
        repository := some n
        authUsername := none
        authPassword := none }, none) := by
  unfold GitHub.setUrl
  simp only [containsSub_formColon, Bool.true_eq_false, if_false]
  rw [normalizeUrl_formColon o n ho hn, parseURL_canonical_nocreds o n]
  simp only []
  rw [applyParsed_nocreds g o n (segOk_not_mem_slash o ho) (segOk_not_mem_slash n hn)]

theorem tripleOk_of_fields (r : GitHub × Option SetUrlError) (o n : Str)
    (h2 : r.2 = none) (hh : r.1.host = strGithubCom) (hus : r.1.username = some o)
    (hr : r.1.repository = some n) : tripleOk r o n := by
  refine ⟨h2, hh, hus, hr, ?_⟩
  refine ⟨if r.1.authUsername ≠ some strInstallation ∧
      (r.1.authUsername ≠ none ∨ r.1.authPassword ≠ none) then
      some (render r.1.authUsername ++ ':' :: render r.1.authPassword) else none, ?_⟩
  simp only [GitHub.url]
  rw [hh, hus, hr]
  rfl

/-! Claim theorems. -/

/-- C1: the claim states that for a package without `githubId` the function
fetches the release, fails without an upload endpoint, sniffs the MIME type,
uploads, and returns a distinct copy.  The code does none of this: the
unconditional `return pkg` on line 269 makes that whole path dead, so on
every input — in particular every package with `githubId` unset —
`uploadPackage` performs zero network calls and returns the received object
itself (not a copy). -/
theorem uploadPackage_always_returns_input (g : GitHub) (pkg : IPackage) :
    g.uploadPackage pkg = (pkg, []) := by
  unfold GitHub.uploadPackage
  split <;> rfl

/-- C2: with `githubId` already set, `uploadPackage` returns the package
unchanged and `uploadLog` returns undefined (an equivalent no-op); both
perform zero network calls, leave the token cache untouched, and neither is
an error. -/
theorem publish_idempotency_guard (g : GitHub) (pkg : IPackage) (log : ILog)
    (freshToken : Str) (labelFetch : Except ApiFailure Unit) (issueId : Nat) :
    (pkg.githubId.isSome → g.uploadPackage pkg = (pkg, [])) ∧
    (log.githubId.isSome →
      g.uploadLog log freshToken labelFetch issueId = (none, g.cache, [])) := by
  constructor
  · intro _; unfold GitHub.uploadPackage; split <;> rfl
  · intro h; unfold GitHub.uploadLog; rw [if_pos h]

/-- Witness for C2 at a concrete already-published package and log. -/
theorem publish_idempotency_guard_witness :
    ({} : GitHub).uploadPackage { path := [], name := exName, githubId := some 7 } =
        ({ path := [], name := exName, githubId := some 7 }, []) ∧
    ({} : GitHub).uploadLog { title := exUser, body := exPass, githubId := some 9 }
        exToken (Except.ok ()) 3 = (none, ({} : GitHub).cache, []) :=
  ⟨(publish_idempotency_guard {} { path := [], name := exName, githubId := some 7 }
      { title := exUser, body := exPass, githubId := some 9 } exToken (Except.ok ()) 3).1
      (by decide),
   (publish_idempotency_guard {} { path := [], name := exName, githubId := some 7 }
      { title := exUser, body := exPass, githubId := some 9 } exToken (Except.ok ()) 3).2
      (by decide)⟩

/-- C3: `getAuthorization` returns a Bearer header with no network call and
no cache change when `authUsername` is not the installation sentinel; in
installation mode a cache hit yields the cached token with zero exchanges,
and a cache miss performs exactly one token exchange, stores the fresh token
under the installation id, and returns it. -/
theorem getAuthorization_cases (g : GitHub) (freshToken : Str) :
    (g.authUsername ≠ some strInstallation →
      g.getAuthorization freshToken = (strBearerSp ++ render g.authPassword, g.cache, [])) ∧
    (g.authUsername = some strInstallation →
      ∀ tok, cacheGet g.cache (render g.authPassword) = some tok →
        g.getAuthorization freshToken = (strTokenSp ++ tok, g.cache, [])) ∧
    (g.authUsername = some strInstallation →
      cacheGet g.cache (render g.authPassword) = none →
        g.getAuthorization freshToken =
          (strTokenSp ++ freshToken,
            (render g.authPassword, freshToken) :: g.cache,
            [NetCall.tokenExchange (render g.authPassword)])) := by
  refine ⟨?_, ?_, ?_⟩
  · intro h; unfold GitHub.getAuthorization; rw [if_pos h]
  · intro h tok hc
    unfold GitHub.getAuthorization
    rw [if_neg (by simp [h])]
    simp only [hc]
  · intro h hc
    unfold GitHub.getAuthorization
    rw [if_neg (by simp [h])]
    simp only [hc]
    rfl

/-- Witness for C3: a static identity, an installation identity with a cache
hit, and an installation identity with an empty cache. -/
theorem getAuthorization_cases_witness :
    ({ authPassword := some exPass } : GitHub).getAuthorization exToken =
        (strBearerSp ++ exPass, [], []) ∧
    ({ authUsername := some strInstallation, authPassword := some exUser, cache := [(exUser, exToken)] } : GitHub).getAuthorization exPass =
        (strTokenSp ++ exToken, [(exUser, exToken)], []) ∧
    ({ authUsername := some strInstallation, authPassword := some exUser } : GitHub).getAuthorization exToken =
        (strTokenSp ++ exToken, [(exUser, exToken)], [NetCall.tokenExchange exUser]) :=
  ⟨(getAuthorization_cases { authPassword := some exPass } exToken).1 (by decide),
   (getAuthorization_cases { authUsername := some strInstallation, authPassword := some exUser, cache := [(exUser, exToken)] } exPass).2.1 rfl
      exToken (by decide),
   (getAuthorization_cases { authUsername := some strInstallation, authPassword := some exUser } exToken).2.2 rfl rfl⟩

/-- C4: the url setter fails with the invalid-repository error exactly on
strings not containing the hosting domain token, immediately and with no
other effect; a string containing the token never raises this error (it may
still fail URL parsing, a different error). -/
theorem setUrl_invalid_repository_iff (g : GitHub) (p : Str) :
    (containsSub p strGithub = false →
      g.setUrl p = (g, some SetUrlError.invalidRepository)) ∧
    (containsSub p strGithub = true →
      (g.setUrl p).2 ≠ some SetUrlError.invalidRepository) := by
  constructor
  · intro h; unfold GitHub.setUrl; rw [if_pos h]
  · intro h
    unfold GitHub.setUrl
    rw [if_neg (by simp [h])]
    cases hp : parseURL (normalizeUrl p) with
    | none => simp
    | some u => simp

/-- Witness for C4: a URL without the token is rejected, one with it is not
rejected by this error. -/
theorem setUrl_invalid_repository_iff_witness :
    ({} : GitHub).setUrl exUrlNoGithub = ({}, some SetUrlError.invalidRepository) ∧
    (({} : GitHub).setUrl exUrlTokenOnly).2 ≠ some SetUrlError.invalidRepository :=
  ⟨(setUrl_invalid_repository_iff {} exUrlNoGithub).1 (by decide),
   (setUrl_invalid_repository_iff {} exUrlTokenOnly).2 (by decide)⟩

/-- C5: when the accepted URL's credential pair parses with a non-empty
username and no password, the setter rewrites the credentials to
`x-access-token` with the parsed username value as password. -/
theorem setUrl_username_only_rewrite (g : GitHub) (p : Str) (u : ParsedURL)
    (hc : containsSub p strGithub = true)
    (hp : parseURL (normalizeUrl p) = some u)
    (hU : u.username ≠ []) (hP : u.password = []) :
    (g.setUrl p).1.authUsername = some strXAccessToken ∧
      (g.setUrl p).1.authPassword = some u.username ∧ (g.setUrl p).2 = none := by
  unfold GitHub.setUrl
  rw [if_neg (by simp [hc])]
  simp only [hp]
  unfold applyParsed
  simp [hU, hP]

/-- Witness for C5 at the token-only sample URL. -/
theorem setUrl_username_only_rewrite_witness :
    (({} : GitHub).setUrl exUrlTokenOnly).1.authUsername = some strXAccessToken ∧
      (({} : GitHub).setUrl exUrlTokenOnly).1.authPassword = some exToken ∧
      (({} : GitHub).setUrl exUrlTokenOnly).2 = none :=
  setUrl_username_only_rewrite {} exUrlTokenOnly
    ⟨strGithubCom, ("/elementary/houston".data), exToken, []⟩
    (by decide) (by decide) (by decide) rfl

/-- C6: parsing each accepted URL form for a repository — https with
optional credentials and optional `.git`, scp-style `git@`, and the
colon-separator variant — succeeds with the identity denoting the triple
`(github.com, owner, name)`, and formatting that identity yields a URL
pointing at the same triple, up to credential placement. -/
theorem setUrl_roundtrip_forms (g : GitHub) (o n : Str) (creds : Option (Str × Str))
    (git : Bool) (ho : segOk o) (hn : segOk n) (hc : credsOk creds) :
    tripleOk (g.setUrl (formHttps creds o n git)) o n ∧
    tripleOk (g.setUrl (formScp o n git)) o n ∧
    tripleOk (g.setUrl (formColon o n)) o n := by
  refine ⟨?_, ?_, ?_⟩
  · cases creds with
    | none =>
      rw [setUrl_formHttps_nocreds g o n git ho hn]
      exact tripleOk_of_fields _ o n rfl rfl rfl rfl
    | some q =>
      rw [setUrl_formHttps_creds g q.1 q.2 o n git hc.1 hc.2 ho hn]
      exact tripleOk_of_fields _ o n rfl rfl rfl rfl
  · rw [setUrl_formScp g o n git ho hn]
    exact tripleOk_of_fields _ o n rfl rfl rfl rfl
  · rw [setUrl_formColon g o n ho hn]
    exact tripleOk_of_fields _ o n rfl rfl rfl rfl

/-- Witness for C6 at a concrete owner, name and credential pair. -/
theorem setUrl_roundtrip_forms_witness :
    tripleOk (({} : GitHub).setUrl (formHttps (some (exUser, exPass)) exOwner exName true))
      exOwner exName ∧
    tripleOk (({} : GitHub).setUrl (formScp exOwner exName true)) exOwner exName ∧
    tripleOk (({} : GitHub).setUrl (formColon exOwner exName)) exOwner exName :=
  setUrl_roundtrip_forms {} exOwner exName (some (exUser, exPass)) true
    (by decide) (by decide) (by decide)

/-- C7: the url getter always emits an https URL; no credentials are
embedded when `authUsername` is the installation sentinel, and both
credential fields are embedded as `user:pass@host` whenever the username is
not the sentinel and at least one credential field is set. -/
theorem url_credential_embedding (g : GitHub) :
    (g.authUsername = some strInstallation →
      g.url = urlFormat none g.host
        ('/' :: render g.username ++ '/' :: render g.repository ++ strDotGit)) ∧
    (g.authUsername ≠ some strInstallation →
      (g.authUsername ≠ none ∨ g.authPassword ≠ none) →
      g.url = urlFormat (some (render g.authUsername ++ ':' :: render g.authPassword))
        g.host ('/' :: render g.username ++ '/' :: render g.repository ++ strDotGit)) := by
  constructor
  · intro h; unfold GitHub.url; rw [if_neg (by simp [h])]
  · intro h1 h2; unfold GitHub.url; rw [if_pos ⟨h1, h2⟩]

/-- Witness for C7: an installation identity embeds nothing, a static
identity embeds both fields. -/
theorem url_credential_embedding_witness :
    ({ authUsername := some strInstallation, authPassword := some exToken, username := some exOwner, repository := some exName } : GitHub).url =
      urlFormat none strGithubCom ('/' :: exOwner ++ '/' :: exName ++ strDotGit) ∧
    ({ authUsername := some exUser, authPassword := some exPass, username := some exOwner, repository := some exName } : GitHub).url =
      urlFormat (some (exUser ++ ':' :: exPass)) strGithubCom
        ('/' :: exOwner ++ '/' :: exName ++ strDotGit) :=
  ⟨(url_credential_embedding { authUsername := some strInstallation, authPassword := some exToken, username := some exOwner, repository := some exName }).1 rfl,
   (url_credential_embedding { authUsername := some exUser, authPassword := some exPass, username := some exOwner, repository := some exName }).2 (by decide) (by decide)⟩

/-- C8: the sniffing routine reads at most the first 4100 bytes: a file
shorter than 4100 bytes is passed whole to the detector (the buffer has
exactly the file's length), a file of at least 4100 bytes is sniffed from
exactly its first 4100 bytes. -/
theorem getFileType_chunk (file : List Nat) :
    (file.length < 4100 → getFileTypeBuffer file = file) ∧
    (4100 ≤ file.length → getFileTypeBuffer file = file.take 4100) := by
  constructor
  · intro h
    have hmin : min 4100 file.length = file.length := Nat.min_eq_right (Nat.le_of_lt h)
    unfold getFileTypeBuffer fsReadChunk
    simp only [hmin, if_pos h]
    rw [List.take_length]
    exact List.take_left file _
  · intro h
    have hmin : min 4100 file.length = 4100 := Nat.min_eq_left h
    unfold getFileTypeBuffer fsReadChunk
    simp only [hmin, Nat.sub_self, List.replicate_zero, List.append_nil]
    rw [if_neg (lt_irrefl 4100)]

/-- Witness for C8: a 5-byte file is passed whole, a 4100-byte file is cut
at 4100. -/
theorem getFileType_chunk_witness :
    getFileTypeBuffer (List.replicate 5 1) = List.replicate 5 1 ∧
    getFileTypeBuffer (List.replicate 4100 2) = (List.replicate 4100 2).take 4100 :=
  ⟨(getFileType_chunk (List.replicate 5 1)).1 (by simp),
   (getFileType_chunk (List.replicate 4100 2)).2
     (by rw [List.length_replicate])⟩

/-- C9: for a log without `githubId`, `uploadLog` probes the fixed label and
treats any fetch failure — whatever the failure — as the label being absent,
creating the label (fixed name, color, description) before creating the
issue; the issue carries the log's title, body and the label, and the log
comes back augmented with the issued id. -/
theorem uploadLog_label_recovery (g : GitHub) (log : ILog) (freshToken : Str)
    (e : ApiFailure) (issueId : Nat) (h : log.githubId = none) :
    g.uploadLog log freshToken (Except.error e) issueId =
      (some { log with githubId := some issueId },
        (g.getAuthorization freshToken).2.1,
        (g.getAuthorization freshToken).2.2 ++
          [NetCall.getLabel strAppCenter,
            NetCall.createLabel strAppCenter strLabelColor strLabelDesc,
            NetCall.createIssue log.title log.body [strAppCenter]]) := by
  unfold GitHub.uploadLog
  rw [if_neg (by simp [h])]
  simp [List.append_assoc]

/-- Witness for C9 at a concrete unpublished log and a non-not-found
failure. -/
theorem uploadLog_label_recovery_witness :
    ({} : GitHub).uploadLog { title := exUser, body := exPass } exToken
        (Except.error (ApiFailure.other 500)) 11 =
      (some { title := exUser, body := exPass, githubId := some 11 },
        (({} : GitHub).getAuthorization exToken).2.1,
        (({} : GitHub).getAuthorization exToken).2.2 ++
          [NetCall.getLabel strAppCenter,
            NetCall.createLabel strAppCenter strLabelColor strLabelDesc,
            NetCall.createIssue exUser exPass [strAppCenter]]) :=
  uploadLog_label_recovery {} { title := exUser, body := exPass } exToken
    (ApiFailure.other 500) 11 rfl

/-- C10: rejection of a raw URL without the hosting domain token is atomic:
the setter throws before any assignment, so host, username, repository,
authUsername, authPassword and reference all keep their prior values. -/
theorem setUrl_reject_preserves_fields (g : GitHub) (p : Str)
    (h : containsSub p strGithub = false) :
    (g.setUrl p).1.host = g.host ∧ (g.setUrl p).1.username = g.username ∧
      (g.setUrl p).1.repository = g.repository ∧
      (g.setUrl p).1.authUsername = g.authUsername ∧
      (g.setUrl p).1.authPassword = g.authPassword ∧
      (g.setUrl p).1.reference = g.reference ∧
      (g.setUrl p).2 = some SetUrlError.invalidRepository := by
  unfold GitHub.setUrl
  rw [if_pos h]
  exact ⟨rfl, rfl, rfl, rfl, rfl, rfl, rfl⟩

/-- Witness for C10 at a concrete identity and rejected URL. -/
theorem setUrl_reject_preserves_fields_witness :
    (({ authUsername := some exUser } : GitHub).setUrl exUrlNoGithub).1.host =
        ({ authUsername := some exUser } : GitHub).host ∧
      (({ authUsername := some exUser } : GitHub).setUrl exUrlNoGithub).1.username =
        ({ authUsername := some exUser } : GitHub).username ∧
      (({ authUsername := some exUser } : GitHub).setUrl exUrlNoGithub).1.repository =
        ({ authUsername := some exUser } : GitHub).repository ∧
      (({ authUsername := some exUser } : GitHub).setUrl exUrlNoGithub).1.authUsername =
        ({ authUsername := some exUser } : GitHub).authUsername ∧
      (({ authUsername := some exUser } : GitHub).setUrl exUrlNoGithub).1.authPassword =
        ({ authUsername := some exUser } : GitHub).authPassword ∧
      (({ authUsername := some exUser } : GitHub).setUrl exUrlNoGithub).1.reference =
        ({ authUsername := some exUser } : GitHub).reference ∧
      (({ authUsername := some exUser } : GitHub).setUrl exUrlNoGithub).2 =
        some SetUrlError.invalidRepository :=
  setUrl_reject_preserves_fields { authUsername := some exUser } exUrlNoGithub (by decide)

end Houston
